import Mathlib

/-!
Verification of the go-rangetripper download engine against its specification.

The definitions below are shallow embeddings of the Go source:
  * the chunk planner inside `RangeTripper.RoundTrip` (rt.go lines 217-256),
  * `SetMax` (rt.go lines 109-117) and `SetChunkSize` (rt.go lines 122-128),
  * the dispatch loop's error-cell checks (rt.go lines 234-256),
  * the post-join size verification (rt.go lines 257-275),
  * the progress stream (rt.go lines 228-230 and 376-378),
  * `RetryClient.Do` (retryclient.go lines 56-79),
  * `tryHeadFake` (rt.go lines 424-457),
  * the single-use guard (rt.go lines 144-150),
  * the semaphore discipline of worker dispatch (rt.go lines 234-256, 369-390),
  * `fetchChunk`'s progress/error/write behaviour (rt.go lines 369-418).
Go `int` arithmetic on the relevant paths never overflows or goes negative
(content lengths and chunk counts are nonnegative and small), so `Nat` and
`Int` are used directly.
-/

/-! ## Chunk planner (rt.go lines 217-256)

`RoundTrip` computes `chunkSize = contentLength / workers`; when `SetChunkSize`
was used it instead takes `chunkSize = rt.chunkSize` and resets
`workers = contentLength / chunkSize`.  The dispatch loop then emits `workers`
chunks `[start, start+chunkSize)` beginning at 0, and afterwards a single gap
chunk `[end, contentLength)` whenever the last `end` is below `contentLength`.
-/

/-- The chunk width the planner uses: `L / N` by default, the fixed value set
by `SetChunkSize` when present (rt.go lines 221-224). -/
def chunkWidth (L N : Nat) : Option Nat → Nat
  | none => L / N
  | some c => c

/-- The number of loop-dispatched workers: `N` by default, `L / C` when a fixed
chunk size `C` is set (rt.go line 225). -/
def workerCount (L N : Nat) : Option Nat → Nat
  | none => N
  | some c => L / c

/-- The ranges emitted by the `for i := 0; i < rt.workers; i++` loop
(rt.go lines 234-247): successive `[start, start+chunkSize)` windows. -/
def loopChunks : Nat → Nat → Nat → List (Nat × Nat)
  | _, _, 0 => []
  | s, cs, k + 1 => (s, s + cs) :: loopChunks (s + cs) cs k

/-- The trailing gap chunk `[end, contentLength)`, emitted iff the loop's final
`end` (which equals `workers * chunkSize`) is below the content length
(rt.go lines 248-256). -/
def planGap (L N : Nat) (C : Option Nat) : Option (Nat × Nat) :=
  if workerCount L N C * chunkWidth L N C < L then
    some (workerCount L N C * chunkWidth L N C, L)
  else
    none

/-- All chunk ranges dispatched by `RoundTrip` for content length `L`,
constructor chunk count `N` and optional fixed chunk size `C`. -/
def planChunks (L N : Nat) (C : Option Nat) : List (Nat × Nat) :=
  loopChunks 0 (chunkWidth L N C) (workerCount L N C) ++ (planGap L N C).toList

/-- `chainedFrom a l b`: the ranges in `l` are contiguous, starting at `a` and
ending at `b`, each with its start not above its end. -/
def chainedFrom : Nat → List (Nat × Nat) → Nat → Prop
  | a, [], b => a = b
  | a, p :: l, b => p.1 = a ∧ p.1 ≤ p.2 ∧ chainedFrom p.2 l b

theorem chainedFrom_nil {a b : Nat} (h : a = b) : chainedFrom a [] b := h

theorem chainedFrom_append {a b c : Nat} {l1 l2 : List (Nat × Nat)}
    (h1 : chainedFrom a l1 b) (h2 : chainedFrom b l2 c) :
    chainedFrom a (l1 ++ l2) c := by
  induction l1 generalizing a with
  | nil =>
    have hab : a = b := h1
    subst hab
    simpa using h2
  | cons p t ih =>
    obtain ⟨hp, hle, ht⟩ := h1
    exact ⟨hp, hle, ih ht⟩

theorem chainedFrom_le {a b : Nat} {l : List (Nat × Nat)}
    (h : chainedFrom a l b) : a ≤ b := by
  induction l generalizing a with
  | nil => exact Nat.le_of_eq h
  | cons p t ih =>
    obtain ⟨hp, hle, ht⟩ := h
    have := ih ht
    omega

theorem loopChunks_chained (cs : Nat) :
    ∀ (k s : Nat), chainedFrom s (loopChunks s cs k) (s + k * cs) := by
  intro k
  induction k with
  | zero => intro s; simp [loopChunks, chainedFrom]
  | succ k ih =>
    intro s
    refine ⟨rfl, Nat.le_add_right _ _, ?_⟩
    have h := ih (s + cs)
    have he : s + cs + k * cs = s + (k + 1) * cs := by ring
    exact he ▸ h

theorem chainedFrom_mem_iff {l : List (Nat × Nat)} {b x : Nat} :
    ∀ {a : Nat}, chainedFrom a l b →
      ((∃ p, p ∈ l ∧ p.1 ≤ x ∧ x < p.2) ↔ (a ≤ x ∧ x < b)) := by
  induction l with
  | nil =>
    intro a h
    simp only [List.not_mem_nil, false_and, exists_false, false_iff]
    subst h
    omega
  | cons p t ih =>
    intro a h
    obtain ⟨hp, hle, ht⟩ := h
    have htle : p.2 ≤ b := chainedFrom_le ht
    constructor
    · rintro ⟨q, hq, hq1, hq2⟩
      rcases List.mem_cons.mp hq with hq | hq
      · subst hq; omega
      · have := (ih ht).mp ⟨q, hq, hq1, hq2⟩
        omega
    · rintro ⟨hax, hxb⟩
      by_cases hx : x < p.2
      · exact ⟨p, List.mem_cons_self p t, by omega, hx⟩
      · obtain ⟨q, hq, hq1, hq2⟩ := (ih ht).mpr (by omega)
        exact ⟨q, List.mem_cons_of_mem p hq, hq1, hq2⟩

theorem chainedFrom_lower {l : List (Nat × Nat)} :
    ∀ {a b : Nat}, chainedFrom a l b → ∀ q ∈ l, a ≤ q.1 := by
  induction l with
  | nil => intro a b _ q hq; exact absurd hq (List.not_mem_nil q)
  | cons p t ih =>
    intro a b h q hq
    obtain ⟨hp, hle, ht⟩ := h
    rcases List.mem_cons.mp hq with hq | hq
    · subst hq; omega
    · have := ih ht q hq
      omega

theorem chainedFrom_pairwise {l : List (Nat × Nat)} :
    ∀ {a b : Nat}, chainedFrom a l b →
      l.Pairwise (fun p q => p.2 ≤ q.1) := by
  induction l with
  | nil => intro a b _; exact List.Pairwise.nil
  | cons p t ih =>
    intro a b h
    obtain ⟨hp, hle, ht⟩ := h
    exact List.Pairwise.cons (fun q hq => chainedFrom_lower ht q hq) (ih ht)

theorem chainedFrom_sum {l : List (Nat × Nat)} :
    ∀ {a b : Nat}, chainedFrom a l b →
      (l.map fun p => p.2 - p.1).sum = b - a := by
  induction l with
  | nil => intro a b h; subst h; simp
  | cons p t ih =>
    intro a b h
    obtain ⟨hp, hle, ht⟩ := h
    have htle : p.2 ≤ b := chainedFrom_le ht
    have := ih ht
    simp only [List.map_cons, List.sum_cons, this]
    omega

theorem workerCount_mul_chunkWidth_le (L N : Nat) (C : Option Nat) :
    workerCount L N C * chunkWidth L N C ≤ L := by
  cases C with
  | none =>
    simpa [workerCount, chunkWidth, Nat.mul_comm] using Nat.div_mul_le_self L N
  | some c =>
    simpa [workerCount, chunkWidth] using Nat.div_mul_le_self L c

theorem planChunks_chained (L N : Nat) (C : Option Nat) :
    chainedFrom 0 (planChunks L N C) L := by
  have hbase : chainedFrom 0 (loopChunks 0 (chunkWidth L N C) (workerCount L N C))
      (workerCount L N C * chunkWidth L N C) := by
    have h := loopChunks_chained (chunkWidth L N C) (workerCount L N C) 0
    simpa using h
  unfold planChunks planGap
  by_cases hgap : workerCount L N C * chunkWidth L N C < L
  · rw [if_pos hgap]
    exact chainedFrom_append hbase
      ⟨rfl, Nat.le_of_lt hgap, rfl⟩
  · rw [if_neg hgap]
    have hle := workerCount_mul_chunkWidth_le L N C
    have heq : workerCount L N C * chunkWidth L N C = L := by omega
    simpa [heq] using hbase

/-- Claim C1: for every content length `L ≥ 1`, worker count `N ≥ 1` and
optional fixed chunk size `C ≥ 1`, the chunk ranges dispatched by `RoundTrip`
(the loop chunks plus the trailing gap chunk) form a contiguous partition of
`[0, L)`: they are contiguous and ordered, pairwise disjoint, and their union
is exactly `[0, L)`. -/
theorem planChunks_partition (L N : Nat) (C : Option Nat)
    (hL : 1 ≤ L) (hN : 1 ≤ N) (hC : ∀ c ∈ C, 1 ≤ c) :
    chainedFrom 0 (planChunks L N C) L
  ∧ (planChunks L N C).Pairwise (fun p q => p.2 ≤ q.1)
  ∧ (∀ x, (∃ p, p ∈ planChunks L N C ∧ p.1 ≤ x ∧ x < p.2) ↔ x < L) := by
  have hch := planChunks_chained L N C
  refine ⟨hch, chainedFrom_pairwise hch, ?_⟩
  intro x
  rw [chainedFrom_mem_iff hch]
  omega

/-- Witness for C1 at `L = 10`, `N = 3`, no fixed chunk size. -/
theorem planChunks_partition_witness :
    (1 ≤ 10 ∧ 1 ≤ 3 ∧ (∀ c ∈ (none : Option Nat), 1 ≤ c))
  ∧ (chainedFrom 0 (planChunks 10 3 none) 10
     ∧ (planChunks 10 3 none).Pairwise (fun p q => p.2 ≤ q.1)
     ∧ (∀ x, (∃ p, p ∈ planChunks 10 3 none ∧ p.1 ≤ x ∧ x < p.2) ↔ x < 10)) :=
  ⟨⟨by decide, by decide, by simp⟩,
    planChunks_partition 10 3 none (by decide) (by decide) (by simp)⟩

/-! ## SetMax (rt.go lines 109-117)

`SetMax(max)` returns immediately when `max == 0`; otherwise it clamps `max`
to `workers + 1` whenever `max > workers` and replaces the semaphore with one
of that capacity.
-/

/-- The capacity `SetMax` installs: `none` means the call was a no-op
(rt.go lines 109-117).  `workers` is the instance's chunk count. -/
def setMax (workers m : Int) : Option Int :=
  if m = 0 then none
  else if m > workers then some (workers + 1)
  else some m

/-- Counterexample to C2 as stated: with chunk count `N = 10`, `setMax 2`
installs capacity `2`, not `max 2 (10 + 1) = 11`. -/
theorem setMax_counterexample :
    setMax 10 2 = some 2 ∧ setMax 10 2 ≠ some (max (2 : Int) (10 + 1)) := by
  constructor
  · decide
  · decide

/-- Claim C2 (amended): `set_max(0)` is a no-op, and for `m ≠ 0` the installed
semaphore capacity is `min m (workers + 1)` -- the code clamps from above at
`workers + 1`, it does not take a maximum with it. -/
theorem setMax_capacity (workers m : Int) :
    setMax workers m = if m = 0 then none else some (min m (workers + 1)) := by
  unfold setMax
  by_cases h0 : m = 0
  · simp [h0]
  · by_cases h1 : m > workers
    · simp only [h0, if_false, h1, if_true]
      congr 1
      omega
    · simp only [h0, if_false, h1, if_true]
      congr 1
      omega

/-! ## Dispatch loop and the shared error cell (rt.go lines 234-256)

The dispatcher checks `rt.fetchError` at the top of every loop iteration
(after acquiring the semaphore) and aborts with that error when non-nil; it
then spawns the loop worker.  The trailing gap-chunk dispatch at lines
248-256 acquires the semaphore and spawns with *no* error-cell check.

The error cell is written only with non-nil values (`fetchChunk`, rt.go lines
386-390), so over time it is empty up to some instant and non-empty from then
on.  `T : Option Nat` is that instant (`none` when no error is ever stored);
check-and-spawn of a single chunk is modelled as one atomic step, the loop's
`i`-th check happening at time `i` and the gap dispatch at time `loop.length`.
-/

/-- The value a `fetchError.Load()` at time `t` observes when the first
`fetchError.Store` of a non-nil error happens at time `T`. -/
def cellAt (T : Option Nat) (t : Nat) : Option Unit :=
  match T with
  | none => none
  | some t0 => if t0 ≤ t then some () else none

/-- The dispatch loop of rt.go lines 234-247 over the remaining chunks,
starting at time `t`: returns the dispatched `(chunk, time)` pairs and
`true` iff the loop ran to completion (no abort). -/
def dispatchLoop (T : Option Nat) : List (Nat × Nat) → Nat → List ((Nat × Nat) × Nat) × Bool
  | [], _ => ([], true)
  | c :: rest, t =>
    match cellAt T t with
    | some _ => ([], false)
    | none =>
      let r := dispatchLoop T rest (t + 1)
      ((c, t) :: r.1, r.2)

/-- The whole dispatch phase (rt.go lines 234-256): the checked loop followed
by the unchecked gap-chunk dispatch, which happens whenever the loop did not
abort and a gap chunk is planned. -/
def dispatchAll (T : Option Nat) (loop : List (Nat × Nat)) (gap : Option (Nat × Nat)) :
    List ((Nat × Nat) × Nat) :=
  let r := dispatchLoop T loop 0
  match gap with
  | some g => if r.2 then r.1 ++ [(g, loop.length)] else r.1
  | none => r.1

theorem dispatchLoop_cell_none (T : Option Nat) :
    ∀ (l : List (Nat × Nat)) (t : Nat), ∀ p ∈ (dispatchLoop T l t).1, cellAt T p.2 = none := by
  intro l
  induction l with
  | nil => intro t p hp; simp [dispatchLoop] at hp
  | cons c rest ih =>
    intro t p hp
    by_cases hc : cellAt T t = none
    · rw [dispatchLoop, hc] at hp
      rcases List.mem_cons.mp hp with hp | hp
      · subst hp; exact hc
      · exact ih (t + 1) p hp
    · have hs : cellAt T t = some () := by
        cases h' : cellAt T t with
        | none => exact absurd h' hc
        | some u => cases u; rfl
      rw [dispatchLoop, hs] at hp
      exact absurd hp (List.not_mem_nil p)

/-- Counterexample to C3 as stated: for the plan of `L = 10`, `N = 3` (loop
chunks `[0,3), [3,6), [6,9)`, gap chunk `[9,10)`), when the error cell becomes
non-empty at time 3 -- after the three loop checks, before the gap dispatch --
the gap worker is still dispatched, at time 3, with the cell non-empty. -/
theorem dispatch_gap_unchecked_counterexample :
    ((9, 10), 3) ∈ dispatchAll (some 3)
        (loopChunks 0 (chunkWidth 10 3 none) (workerCount 10 3 none))
        (planGap 10 3 none)
  ∧ cellAt (some 3) 3 = some () := by
  constructor
  · decide
  · decide

/-- Claim C3 (amended): the dispatcher inspects the error cell before each of
the `N` loop spawns -- every loop chunk is dispatched at a time when the cell
was observed empty, and once a check observes a non-empty cell the loop aborts
and dispatches nothing further.  The trailing gap-chunk worker, however, is
dispatched without any error-cell check whenever the loop itself ran to
completion, so it can be dispatched after the cell becomes non-empty. -/
theorem dispatch_error_check (T : Option Nat) (loop : List (Nat × Nat))
    (gap : Option (Nat × Nat)) :
    (∀ p ∈ (dispatchLoop T loop 0).1, cellAt T p.2 = none)
  ∧ ((dispatchLoop T loop 0).2 = false →
      dispatchAll T loop gap = (dispatchLoop T loop 0).1)
  ∧ ((dispatchLoop T loop 0).2 = true →
      dispatchAll T loop gap
        = (dispatchLoop T loop 0).1 ++ (gap.map (fun c => (c, loop.length))).toList) := by
  refine ⟨dispatchLoop_cell_none T loop 0, ?_, ?_⟩
  · intro h
    unfold dispatchAll
    cases gap with
    | none => rfl
    | some g => simp [h]
  · intro h
    unfold dispatchAll
    cases gap with
    | none => simp
    | some g => simp [h]

/-! ## Post-join size verification (rt.go lines 257-275)

After `wg.Wait()` the orchestrator re-checks the error cell, stats the output
file, and compares the file size with the declared content length, returning
an error wrapping `ContentLengthMismatchError` on inequality and the probe
response otherwise.
-/

/-- The errors the ranged path can return after the join (rt.go lines
257-275). -/
inductive RTErr where
  | fetchFailed (msg : String)
  | statFailed (msg : String)
  | contentLengthMismatch (actualSize expected : Int)
deriving DecidableEq, Repr

/-- Whether an error wraps `ContentLengthMismatchError` (rt.go line 273 wraps
it with `%w`). -/
def wrapsMismatch : RTErr → Bool
  | .contentLengthMismatch _ _ => true
  | _ => false

/-- The post-join tail of the ranged branch of `RoundTrip` (rt.go lines
257-275): check the error cell, stat the file, compare sizes.  `probe` is the
probe response `hres` returned on success. -/
def finishRanged {α : Type} (probe : α) (ferr : Option String)
    (statRes : Except String Int) (contentLength : Int) : Except RTErr α :=
  match ferr with
  | some e => .error (.fetchFailed e)
  | none =>
    match statRes with
    | .error e => .error (.statFailed e)
    | .ok fileSize =>
      if fileSize ≠ contentLength then
        .error (.contentLengthMismatch fileSize contentLength)
      else
        .ok probe

/-- Claim C4: in ranged mode, when no worker error was recorded and the output
file stats to size `fileSize`, `RoundTrip` returns an error wrapping
`ContentLengthMismatchError` iff `fileSize` differs from the declared content
length, and returns the probe response with no error when they are equal. -/
theorem size_integrity (α : Type) (probe : α) (fileSize contentLength : Int) :
    ((∃ e, finishRanged probe none (.ok fileSize) contentLength = .error e
        ∧ wrapsMismatch e = true) ↔ fileSize ≠ contentLength)
  ∧ (fileSize = contentLength →
      finishRanged probe none (.ok fileSize) contentLength = .ok probe) := by
  constructor
  · constructor
    · rintro ⟨e, he, hw⟩
      intro h
      rw [finishRanged] at he
      simp [h] at he
    · intro h
      refine ⟨.contentLengthMismatch fileSize contentLength, ?_, rfl⟩
      rw [finishRanged]
      simp [h]
  · intro h
    rw [finishRanged]
    simp [h]

/-! ## Progress stream (rt.go lines 228-230 and 376-378)

When a progress channel is attached, `RoundTrip` sends the total content
length on it (line 229) before spawning any worker; each worker's deferred
send pushes `end - start` when it finishes.  On a successful download every
planned chunk was dispatched and finished, so the per-chunk events are the
chunk widths in some completion order.
-/

/-- The widths `end - start` of the planned chunks: the per-chunk progress
events a successful ranged download pushes, one per worker (rt.go line
377). -/
def chunkWidths (L N : Nat) (C : Option Nat) : List Nat :=
  (planChunks L N C).map fun p => p.2 - p.1

/-- The full event stream: the initial content-length event (sent at rt.go
line 229, before any worker spawn) followed by the per-chunk events in
completion order. -/
def progressStream (L : Nat) (evs : List Nat) : List Nat := L :: evs

/-- Claim C5: for a ranged download with a progress channel attached, the
first event on the channel is the total content length, sent before any
per-chunk event, and on success the per-chunk events -- the chunk widths in
any completion order `evs` -- sum to exactly the content length. -/
theorem progress_stream_law (L N : Nat) (C : Option Nat) (evs : List Nat)
    (hperm : evs.Perm (chunkWidths L N C)) :
    (progressStream L evs).head? = some L ∧ evs.sum = L := by
  constructor
  · rfl
  · rw [hperm.sum_eq]
    have h := chainedFrom_sum (planChunks_chained L N C)
    simpa [chunkWidths] using h

/-- Witness for C5 at `L = 10`, `N = 3`, no fixed chunk size, with the events
arriving in plan order. -/
theorem progress_stream_law_witness :
    (chunkWidths 10 3 none).Perm (chunkWidths 10 3 none)
  ∧ ((progressStream 10 (chunkWidths 10 3 none)).head? = some 10
     ∧ (chunkWidths 10 3 none).sum = 10) :=
  ⟨List.Perm.refl _, progress_stream_law 10 3 none _ (List.Perm.refl _)⟩

/-! ## RetryClient.Do (retryclient.go lines 26-38 and 56-79)

`Do` runs a closure through a retrier built with a blacklist classifier whose
single entry is `ErrStatusNope`.  The closure classifies one attempt:
a transport error is returned as-is (retriable); a status in `[400, 500)`
returns `ErrStatusNope` (blacklisted, hence non-retriable); a status `≥ 300`
or `< 200` returns a wrapped retriable error; otherwise the response is kept
and `nil` returned.  The retrier makes up to `retries` additional attempts on
retriable errors and surfaces the last error; `Do` then returns `nil` for the
response alongside it.
-/

/-- A response, by its status code and body. -/
structure Resp where
  status : Nat
  body : String
deriving DecidableEq, Repr

/-- What one underlying `w.client.Do(req)` attempt produces. -/
inductive Attempt where
  | transportFailed (msg : String)
  | resp (status : Nat) (body : String)
deriving DecidableEq, Repr

/-- The errors `RetryClient.Do` can surface. -/
inductive RCErr where
  | nope
  | transport (msg : String)
  | non2xx (status : Nat)
deriving DecidableEq, Repr

/-- The outcome of the `try` closure on one attempt (retryclient.go lines
59-73), as the retrier's classifier sees it: success, the blacklisted
`ErrStatusNope`, or a retriable error. -/
inductive TryOut where
  | success (r : Resp)
  | blacklisted
  | retriable (e : RCErr)
deriving DecidableEq, Repr

/-- The `try` closure (retryclient.go lines 59-73). -/
def tryClassify : Attempt → TryOut
  | .transportFailed m => .retriable (.transport m)
  | .resp s b =>
    if 400 ≤ s ∧ s < 500 then .blacklisted
    else if 300 ≤ s ∨ s < 200 then .retriable (.non2xx s)
    else .success ⟨s, b⟩

/-- Whether an attempt is retriable under `tryClassify`. -/
def retriableAtt : Attempt → Bool
  | .transportFailed _ => true
  | .resp s _ => decide (¬(200 ≤ s ∧ s < 300) ∧ ¬(400 ≤ s ∧ s < 500))

/-- The retriable error a retriable attempt turns into. -/
def retriErrOf : Attempt → RCErr
  | .transportFailed m => .transport m
  | .resp s _ => .non2xx s

/-- The retrier loop (go-resiliency `Retrier.Run` with a blacklist
classifier, as constructed at retryclient.go lines 26-38): run the attempt;
return on success or on a blacklisted error; otherwise retry while budget
remains, else return the last error.  `att k` is the result of the `k`-th
underlying attempt. -/
def retrierRun (att : Nat → Attempt) : Nat → Nat → Except RCErr Resp
  | 0, k =>
    match tryClassify (att k) with
    | .success r => .ok r
    | .blacklisted => .error .nope
    | .retriable e => .error e
  | b + 1, k =>
    match tryClassify (att k) with
    | .success r => .ok r
    | .blacklisted => .error .nope
    | .retriable _ => retrierRun att b (k + 1)

/-- `RetryClient.Do` for a client built with `retries` (retryclient.go lines
56-79): `.ok r` models `(resp, nil)`, `.error e` models `(nil, err)`. -/
def retryDo (retries : Nat) (att : Nat → Attempt) : Except RCErr Resp :=
  retrierRun att retries 0

theorem tryClassify_of_retriable (a : Attempt) (h : retriableAtt a = true) :
    tryClassify a = .retriable (retriErrOf a) := by
  cases a with
  | transportFailed m => rfl
  | resp s b =>
    simp only [retriableAtt, decide_eq_true_eq] at h
    obtain ⟨h2, h4⟩ := h
    have h3 : 300 ≤ s ∨ s < 200 := by omega
    simp [tryClassify, h4, h3, retriErrOf]

theorem retrierRun_success {att : Nat → Attempt} {k : Nat} {r : Resp}
    (h : tryClassify (att k) = .success r) (b : Nat) :
    retrierRun att b k = .ok r := by
  cases b <;> simp [retrierRun, h]

theorem retrierRun_blacklisted {att : Nat → Attempt} {k : Nat}
    (h : tryClassify (att k) = .blacklisted) (b : Nat) :
    retrierRun att b k = .error .nope := by
  cases b <;> simp [retrierRun, h]

theorem retrierRun_step {att : Nat → Attempt} {k : Nat}
    (h : retriableAtt (att k) = true) (b : Nat) :
    retrierRun att (b + 1) k = retrierRun att b (k + 1) := by
  simp [retrierRun, tryClassify_of_retriable (att k) h]

theorem retrierRun_reach (att : Nat → Attempt) :
    ∀ (m b k : Nat), m ≤ b → (∀ j, j < m → retriableAtt (att (k + j)) = true) →
      retrierRun att b k = retrierRun att (b - m) (k + m) := by
  intro m
  induction m with
  | zero => intro b k _ _; simp
  | succ m ih =>
    intro b k hm hr
    obtain ⟨b', rfl⟩ : ∃ b', b = b' + 1 := ⟨b - 1, by omega⟩
    have h0 : retriableAtt (att k) = true := by
      have := hr 0 (by omega)
      simpa using this
    rw [retrierRun_step h0]
    have hrest : ∀ j, j < m → retriableAtt (att (k + 1 + j)) = true := by
      intro j hj
      have := hr (j + 1) (by omega)
      have he : k + (j + 1) = k + 1 + j := by omega
      rwa [he] at this
    rw [ih b' (k + 1) (by omega) hrest]
    have e1 : b' + 1 - (m + 1) = b' - m := by omega
    have e2 : k + 1 + m = k + (m + 1) := by omega
    rw [e1, e2]

theorem retrierRun_all_retriable (att : Nat → Attempt) :
    ∀ (b k : Nat), (∀ j, j ≤ b → retriableAtt (att (k + j)) = true) →
      retrierRun att b k = .error (retriErrOf (att (k + b))) := by
  intro b
  induction b with
  | zero =>
    intro k hr
    have h0 : retriableAtt (att k) = true := by simpa using hr 0 (by omega)
    simp [retrierRun, tryClassify_of_retriable (att k) h0]
  | succ b ih =>
    intro k hr
    have h0 : retriableAtt (att k) = true := by simpa using hr 0 (by omega)
    rw [retrierRun_step h0]
    have hrest : ∀ j, j ≤ b → retriableAtt (att (k + 1 + j)) = true := by
      intro j hj
      have := hr (j + 1) (by omega)
      have he : k + (j + 1) = k + 1 + j := by omega
      rwa [he] at this
    rw [ih (k + 1) hrest]
    have he : k + 1 + b = k + (b + 1) := by omega
    rw [he]

/-- Claim C6: `RetryClient.Do` classification.  When the attempts before the
`k`-th (for `k ≤ retries`) are all retriable: a `k`-th attempt with a 2xx
status succeeds and its response is returned with no error, and a `k`-th
attempt with a 4xx status returns the non-retriable `ErrStatusNope`
immediately.  When all `retries + 1` attempts are retriable (transport errors
or 1xx/3xx/5xx statuses), the last attempt's error is surfaced with no
response. -/
theorem retryDo_classification (retries : Nat) (att : Nat → Attempt) :
    (∀ k, k ≤ retries → (∀ j, j < k → retriableAtt (att j) = true) →
      (∀ s b, att k = .resp s b → 200 ≤ s → s < 300 →
        retryDo retries att = .ok ⟨s, b⟩)
      ∧ (∀ s b, att k = .resp s b → 400 ≤ s → s < 500 →
        retryDo retries att = .error .nope))
  ∧ ((∀ j, j ≤ retries → retriableAtt (att j) = true) →
      retryDo retries att = .error (retriErrOf (att retries))) := by
  constructor
  · intro k hk hbefore
    have hreach : retryDo retries att = retrierRun att (retries - k) k := by
      have := retrierRun_reach att k retries 0 hk (by
        intro j hj
        simpa using hbefore j hj)
      simpa [retryDo] using this
    constructor
    · intro s b hab h2 h3
      have hcl : tryClassify (att k) = .success ⟨s, b⟩ := by
        rw [hab]
        have h4 : ¬(400 ≤ s ∧ s < 500) := by omega
        have h5 : ¬(300 ≤ s ∨ s < 200) := by omega
        simp [tryClassify, h4, h5]
      rw [hreach, retrierRun_success hcl]
    · intro s b hab h4a h4b
      have hcl : tryClassify (att k) = .blacklisted := by
        rw [hab]
        have h4 : 400 ≤ s ∧ s < 500 := ⟨h4a, h4b⟩
        simp [tryClassify, h4]
      rw [hreach, retrierRun_blacklisted hcl]
  · intro hall
    have := retrierRun_all_retriable att retries 0 (by
      intro j hj
      simpa using hall j hj)
    simpa [retryDo] using this

/-! ## tryHeadFake (rt.go lines 424-457)

On a 206 from the head-fake GET, `tryHeadFake` splits the `Content-Range`
header on `/`, and when that yields exactly two parts sets `Content-Length`
to the second; it then forces `Accept-Ranges` to `bytes` when it differs, and
returns the mangled response with a nil error.
-/

/-- Go's `strings.Split(s, "/")` over the characters of `s`: the substrings
between occurrences of `/`. -/
def splitSlash : List Char → List (List Char)
  | [] => [[]]
  | c :: rest =>
    if c = '/' then [] :: splitSlash rest
    else
      match splitSlash rest with
      | [] => [[c]]
      | h :: t => (c :: h) :: t

/-- The response headers `tryHeadFake` reads and writes. -/
structure Headers where
  contentRange : String
  contentLength : String
  acceptRanges : String
deriving DecidableEq, Repr

/-- rt.go lines 443-447: split `Content-Range` on `/` and, when that gives
exactly two parts, overwrite `Content-Length` with the second. -/
def setCL (h : Headers) : Headers :=
  match splitSlash h.contentRange.data with
  | [_, total] => { h with contentLength := String.mk total }
  | _ => h

/-- rt.go lines 448-450: force `Accept-Ranges` to `bytes` when it is not
already that. -/
def forceAR (h : Headers) : Headers :=
  if h.acceptRanges ≠ "bytes" then { h with acceptRanges := "bytes" } else h

/-- The header synthesis of the 206 branch of `tryHeadFake` (rt.go lines
438-452). -/
def synth206 (h : Headers) : Headers := forceAR (setCL h)

/-- What `tryHeadFake` returns (rt.go lines 424-457): `ok` carries the
response it hands back with a nil error. -/
inductive HFResult where
  | ok (status : Nat) (headers : Headers)
  | getFailed (msg : String)
  | writeFailed (msg : String)
  | headFakeFailed
deriving DecidableEq, Repr

/-- `tryHeadFake` (rt.go lines 424-457): `getRes` is what the head-fake GET
produced, `copyRes` the outcome of the whole-body copy done in the 200
branch. -/
def tryHeadFake (getRes : Except String (Nat × Headers))
    (copyRes : Except String Unit) : HFResult :=
  match getRes with
  | .error e => .getFailed e
  | .ok (status, h) =>
    if status = 200 then
      match copyRes with
      | .error e => .writeFailed e
      | .ok _ => .ok 200 h
    else if status = 206 then
      .ok 206 (synth206 h)
    else
      .headFakeFailed

/-- rt.go line 217: the orchestrator proceeds in ranged mode iff the carried
`Accept-Ranges` header equals `bytes`. -/
def rangedMode (h : Headers) : Bool := h.acceptRanges = "bytes"

theorem setCL_acceptRanges (h : Headers) : (setCL h).acceptRanges = h.acceptRanges := by
  unfold setCL
  split <;> rfl

theorem forceAR_acceptRanges (h : Headers) : (forceAR h).acceptRanges = "bytes" := by
  unfold forceAR
  split
  · rfl
  · rename_i h1
    simpa using h1

theorem forceAR_contentLength (h : Headers) : (forceAR h).contentLength = h.contentLength := by
  unfold forceAR
  split <;> rfl

/-- Claim C7: whenever the head-fake GET returns status 206, `tryHeadFake`
returns that response with a nil error, with `Content-Length` set to the part
of `Content-Range` after the `/` when splitting on `/` yields exactly two
parts (and left unchanged otherwise), and with `Accept-Ranges` forced to
`bytes`, so the orchestrator proceeds in ranged mode on the synthesized
headers. -/
theorem headFake_206_synthesis (h : Headers) (copyRes : Except String Unit) :
    tryHeadFake (.ok (206, h)) copyRes = .ok 206 (synth206 h)
  ∧ (synth206 h).acceptRanges = "bytes"
  ∧ rangedMode (synth206 h) = true
  ∧ (∀ pre total, splitSlash h.contentRange.data = [pre, total] →
      (synth206 h).contentLength = String.mk total)
  ∧ ((splitSlash h.contentRange.data).length ≠ 2 →
      (synth206 h).contentLength = h.contentLength) := by
  refine ⟨?_, ?_, ?_, ?_, ?_⟩
  · rfl
  · exact forceAR_acceptRanges (setCL h)
  · simp [rangedMode, synth206, forceAR_acceptRanges]
  · intro pre total hsp
    rw [synth206, forceAR_contentLength]
    unfold setCL
    rw [hsp]
  · intro hlen
    rw [synth206, forceAR_contentLength]
    unfold setCL
    split
    · rename_i heq
      rw [heq] at hlen
      simp at hlen
    · rfl

/-! ## Single-use guard (rt.go lines 144-150)

`RoundTrip` starts with `rt.used.Swap(true)`: the old value is returned and
the flag is left `true`.  A `true` old value means a request was already made
and `(nil, SingleRequestExhaustedError)` is returned at once.  `Do` simply
calls `RoundTrip` (rt.go lines 287-289).
-/

/-- The single error of the guard. -/
inductive GuardErr where
  | singleRequestExhausted
deriving DecidableEq, Repr

/-- `rt.used.Swap(true)`: returns the old value and sets the flag to
`true`. -/
def usedSwap (used : Bool) : Bool × Bool := (used, true)

/-- The guard at the top of `RoundTrip` (rt.go lines 144-150): the outcome of
one call (`some` means the call returned `(nil, SingleRequestExhaustedError)`
at once, `none` means it proceeded) and the flag afterwards. -/
def roundTripGuard (used : Bool) : Option GuardErr × Bool :=
  ((if (usedSwap used).1 then some .singleRequestExhausted else none),
    (usedSwap used).2)

/-- The guard outcomes of `n` successive `RoundTrip` (or `Do`) calls starting
from flag state `used`. -/
def runCalls : Bool → Nat → List (Option GuardErr)
  | _, 0 => []
  | used, n + 1 =>
    (roundTripGuard used).1 :: runCalls (roundTripGuard used).2 n

theorem runCalls_true (n : Nat) :
    runCalls true n = List.replicate n (some .singleRequestExhausted) := by
  induction n with
  | zero => rfl
  | succ n ih => simp [runCalls, roundTripGuard, usedSwap, ih, List.replicate]

/-- Claim C8: for a fresh RangeTripper, the first `RoundTrip` call atomically
marks the instance used and proceeds; every subsequent call to `RoundTrip` (or
`Do`, which is identical) returns a nil response together with
`SingleRequestExhaustedError`. -/
theorem single_use_guard (n : Nat) :
    runCalls false (n + 1)
      = none :: List.replicate n (some GuardErr.singleRequestExhausted) := by
  simp [runCalls, roundTripGuard, usedSwap, runCalls_true]

/-! ## Semaphore discipline (rt.go lines 234-256 and 369-390)

The dispatcher acquires one semaphore permit (`rt.sem.Lock()`) before each
spawn; the spawned `fetchChunk` releases it (`defer rt.sem.Unlock()`) when it
finishes.  A state tracks the free permits, the permit the dispatcher holds
between its `Lock` and the spawn, and the in-flight workers, each holding one
permit.
-/

/-- Permit accounting: free permits in the semaphore, permits held by the
dispatcher between `Lock` and spawn, and in-flight workers. -/
structure SemState where
  avail : Nat
  held : Nat
  inflight : Nat
deriving DecidableEq, Repr

/-- The permit-moving events of the ranged download. -/
inductive SemStep : SemState → SemState → Prop where
  | acquire {s : SemState} (h : 1 ≤ s.avail) :
      SemStep s ⟨s.avail - 1, s.held + 1, s.inflight⟩
  | spawn {s : SemState} (h : 1 ≤ s.held) :
      SemStep s ⟨s.avail, s.held - 1, s.inflight + 1⟩
  | finish {s : SemState} (h : 1 ≤ s.inflight) :
      SemStep s ⟨s.avail + 1, s.held, s.inflight - 1⟩

/-- States reachable from a semaphore of capacity `M` with no worker yet. -/
inductive SemReachable (M : Nat) : SemState → Prop where
  | init : SemReachable M ⟨M, 0, 0⟩
  | step {s t : SemState} : SemReachable M s → SemStep s t → SemReachable M t

/-- Claim C9: at every moment of a ranged download, the number of in-flight
chunk workers is at most the semaphore capacity `M`; permits are conserved --
each worker holds one from before it is spawned until it finishes. -/
theorem concurrency_cap (M : Nat) (s : SemState) (h : SemReachable M s) :
    s.inflight ≤ M ∧ s.avail + s.held + s.inflight = M := by
  induction h with
  | init => simp
  | step _ hs ih =>
    obtain ⟨ih1, ih2⟩ := ih
    cases hs with
    | acquire h1 => refine ⟨?_, ?_⟩ <;> simp <;> omega
    | spawn h1 => refine ⟨?_, ?_⟩ <;> simp <;> omega
    | finish h1 => refine ⟨?_, ?_⟩ <;> simp <;> omega

/-- Witness for C9: the state after one `Lock` on a capacity-2 semaphore is
reachable and satisfies the cap. -/
theorem concurrency_cap_witness :
    SemReachable 2 ⟨1, 1, 0⟩
  ∧ ((⟨1, 1, 0⟩ : SemState).inflight ≤ 2
     ∧ (⟨1, 1, 0⟩ : SemState).avail + (⟨1, 1, 0⟩ : SemState).held
         + (⟨1, 1, 0⟩ : SemState).inflight = 2) := by
  have r : SemReachable 2 ⟨1, 1, 0⟩ :=
    SemReachable.step SemReachable.init (SemStep.acquire (by decide))
  exact ⟨r, concurrency_cap 2 ⟨1, 1, 0⟩ r⟩

/-! ## fetchChunk progress and error behaviour (rt.go lines 369-418)

When a progress channel is attached, `fetchChunk` registers the deferred send
of `end - start` first, before the semaphore/waitgroup releases and the
error-storing defer, so it runs on every return path: request-build failure,
`Do` failure, `ReadAll` failure, `WriteAt` failure, and success alike each
send exactly one event of `end - start`.  Bytes only reach the file on the
success path.
-/

/-- How far one chunk worker got (rt.go lines 392-417). -/
inductive ChunkOutcome where
  | reqFailed (msg : String)
  | doFailed (msg : String)
  | readFailed (msg : String)
  | writeFailed (msg : String)
  | succeeded (bytesWritten : Nat)
deriving DecidableEq, Repr

/-- What one `fetchChunk` run leaves behind: the progress events it sent, the
bytes it wrote at its offset, and the error it stored in `fetchError`. -/
structure ChunkRun where
  events : List Int
  written : Nat
  storedErr : Option String
deriving DecidableEq, Repr

/-- `fetchChunk start end` with a progress channel attached (rt.go lines
369-418), for each possible outcome.  The deferred progress send fires on
every path with value `end - start`; every failure stores its error; only
success writes bytes. -/
def fetchChunkModel (s e : Nat) (o : ChunkOutcome) : ChunkRun :=
  match o with
  | .reqFailed m => ⟨[(e : Int) - (s : Int)], 0, some m⟩
  | .doFailed m => ⟨[(e : Int) - (s : Int)], 0, some m⟩
  | .readFailed m => ⟨[(e : Int) - (s : Int)], 0, some m⟩
  | .writeFailed m => ⟨[(e : Int) - (s : Int)], 0, some m⟩
  | .succeeded n => ⟨[(e : Int) - (s : Int)], n, none⟩

/-- Whether a chunk outcome is a failure. -/
def isFailedOutcome : ChunkOutcome → Bool
  | .succeeded _ => false
  | _ => true

/-- The runs of a list of chunks with the given outcomes. -/
def runChunks (ps : List (Nat × Nat)) (os : List ChunkOutcome) : List ChunkRun :=
  List.zipWith (fun p o => fetchChunkModel p.1 p.2 o) ps os

/-- The sum of all per-chunk progress events of a download. -/
def totalEvents (rs : List ChunkRun) : Int :=
  (rs.map fun r => r.events.sum).sum

/-- The total bytes written to the output file by a download. -/
def totalWritten (rs : List ChunkRun) : Nat :=
  (rs.map fun r => r.written).sum

/-- Claim C10: with a progress channel attached, every dispatched chunk worker
sends exactly one progress event equal to `end - start` whatever its outcome,
and every failing outcome stores an error; consequently, on a failed download
the per-chunk events can sum to more than the bytes written -- as on the
`L = 10`, `N = 3` plan where the second chunk's GET fails: events sum to 10
while only 7 bytes were written. -/
theorem fetchChunk_progress_always (s e : Nat) :
    (∀ o : ChunkOutcome, (fetchChunkModel s e o).events = [(e : Int) - (s : Int)])
  ∧ (∀ o : ChunkOutcome, isFailedOutcome o = true → (fetchChunkModel s e o).storedErr ≠ none)
  ∧ (totalEvents (runChunks (planChunks 10 3 none)
        [.succeeded 3, .doFailed "connection reset", .succeeded 3, .succeeded 1]) = 10
     ∧ totalWritten (runChunks (planChunks 10 3 none)
        [.succeeded 3, .doFailed "connection reset", .succeeded 3, .succeeded 1]) = 7
     ∧ (totalEvents (runChunks (planChunks 10 3 none)
        [.succeeded 3, .doFailed "connection reset", .succeeded 3, .succeeded 1])
        > (totalWritten (runChunks (planChunks 10 3 none)
            [.succeeded 3, .doFailed "connection reset", .succeeded 3, .succeeded 1]) : Int))) := by
  refine ⟨?_, ?_, ?_, ?_, ?_⟩
  · intro o; cases o <;> rfl
  · intro o ho
    cases o <;> simp [fetchChunkModel]
    · simp [isFailedOutcome] at ho
  · decide
  · decide
  · decide
